import Mathlib

/-!
Verification of the minivect code generator (codegen.py) against its
natural-language specification.

The embedding models the C code generator `CCodeGen`, the reduced
cleanup visitor `CodeGenCleanup`, and the text sink with its
insertion-point (out-of-order emission) discipline.  Recursion over the
tree is fuel-indexed so that every definition is structurally recursive
and kernel-reducible; theorems quantify over the fuel, and a successful
run at any fuel corresponds to a run of the Python generator.
-/

/-! ## Decimal rendering (the semantics of a printf-style %d) -/

/-- Decimal digit characters of a natural number, most significant first.
The first argument is fuel making the recursion structural. -/
def natToDecAux : Nat → Nat → List Char
  | 0, _ => []
  | fuel+1, n =>
    if n < 10 then [Nat.digitChar n]
    else natToDecAux fuel (n / 10) ++ [Nat.digitChar (n % 10)]

/-- Decimal digit characters of a natural number. -/
def decChars (n : Nat) : List Char := natToDecAux (n + 1) n

/-- Decimal rendering of a natural number, as produced by %d. -/
def natToDec (n : Nat) : String := (decChars n).asString

/-- Decimal rendering of an integer, as produced by str() on a Python int. -/
def intToDec : Int → String
  | .ofNat n => natToDec n
  | .negSucc n => "-" ++ natToDec (n + 1)

/-! ## The node model

Tree nodes consumed by the generator (spec section 3).  The `For`
header clauses are optional: the node model is produced upstream, and a
clause that is absent is `none` (visiting it is a dispatch failure).
A `Label` node carries a stable identifier `id`; following the spec's
design note, the lazily assigned mangled label name is kept in a side
table keyed by this identifier instead of being mutated in place. -/

inductive Node where
  | FunctionNode (name specialization_name : String) (arguments : List Node) (body : Node)
  | FunctionArgument (vars : List Node)
  | StatListNode (stats : List Node)
  | ForNode (init condition step : Option Node) (body : Node) (is_tiled : Bool)
  | ReturnNode (operand : Node)
  | BinopNode (operator : String) (lhs rhs : Node)
  | UnopNode (operator : String) (operand : Node)
  | TempNode (name : String) (type : String)
  | AssignmentExpr (lhs rhs : Node)
  | AssignmentNode (operand : Node)
  | CastNode (type : String) (operand : Node)
  | DereferenceNode (operand : Node)
  | SingleIndexNode (lhs rhs : Node)
  | ArrayAttribute (name : String)
  | Variable (name : String) (type : String)
  | JumpNode (label : Node)
  | JumpTargetNode (label : Node)
  | LabelNode (id : Nat) (name : String)
  | ConstantNode (value : Int)

/-- Modelled from the spec: the child fields of each node kind, in field
order, used by the Generic Traversal Engine's generic recursion
(`visitchildren`); the engine (minivisitor) is not under src/, and spec
section 4.1 specifies that the generic handler recurses into every child
field.  Absent optional children are skipped, as the null-safe traversal
does. -/
def childrenOf : Node → List Node
  | .FunctionNode _ _ args body => args ++ [body]
  | .FunctionArgument vs => vs
  | .StatListNode stats => stats
  | .ForNode i c st b _ => i.toList ++ c.toList ++ st.toList ++ [b]
  | .ReturnNode op => [op]
  | .BinopNode _ l r => [l, r]
  | .UnopNode _ e => [e]
  | .TempNode _ _ => []
  | .AssignmentExpr l r => [l, r]
  | .AssignmentNode e => [e]
  | .CastNode _ e => [e]
  | .DereferenceNode e => [e]
  | .SingleIndexNode l r => [l, r]
  | .ArrayAttribute _ => []
  | .Variable _ _ => []
  | .JumpNode l => [l]
  | .JumpTargetNode l => [l]
  | .LabelNode _ _ => []
  | .ConstantNode _ => []

/-- Test whether a node is a `For` node. -/
def isForNode : Node → Bool
  | .ForNode .. => true
  | _ => false

/-- Declared type attribute of a node (`v.type` in the Python source);
`none` when the node kind has no such attribute (accessing it would be
an attribute error, i.e. a fatal generator fault). -/
def nodeTypeOf : Node → Option String
  | .Variable _ ty => some ty
  | .TempNode _ ty => some ty
  | .CastNode ty _ => some ty
  | _ => none

/-! ## The code sink and generator state

The sink (spec section 6) offers ordered text emission with stable
insertion points.  A buffer is a list of items, each either a literal
line or a reference to a sub-buffer created by `insertion_point`; final
output linearizes the tree of buffers.  Buffer 0 is the main stream the
generator writes to (`self.code`); fresh buffers receive increasing
identifiers, so a sub-buffer reference always points to a larger
identifier and linearization terminates within `nextId` steps. -/

inductive Item where
  | line (s : String)
  | sub (id : Nat)
deriving DecidableEq

/-- State of one generation run: the sink state (buffers, prototype
stream, scope stacks, current declaration point, mangling rule) and the
generator state (declared-temporaries set, label counter, the label
side tables).  `labelMeta` is ghost bookkeeping recording, for each
assigned label, its base name and the counter value used — it is written
alongside `labelNames` and never read by any handler.  `visitLog`
records every node the dispatcher visits, in order (the observable a
test double would capture); no handler reads it. -/
structure GenState where
  mangle : String → String
  nextId : Nat
  bufs : Nat → List Item
  protoLines : List String
  declaration_levels : List Nat
  loop_levels : List Nat
  declaration_point : Nat
  declared_temps : List String
  label_counter : Nat
  labelNames : Nat → Option String
  labelMeta : Nat → Option (String × Nat)
  visitLog : List Node

/-- Semantic Context collaborator (spec section 6): type rendering, the
static may-error predicate, and the text the error handler and the
disposal synthesis emit at the sink they are handed.  `catchLines` and
`cascadeLines` are what `catch_here` and `cascade` write; `disposalLines`
is what `generate_disposal_code` writes for a given subtree. -/
structure Context where
  declare_type : String → String
  may_error : Node → Bool
  catchLines : List String
  cascadeLines : List String
  disposalLines : Node → List String

/-- Fresh generator/sink state for one run.  Buffer 0 is the main
stream; identifiers from 1 are available for insertion points. -/
def initState (m : String → String) : GenState :=
  { mangle := m
    nextId := 1
    bufs := fun _ => []
    protoLines := []
    declaration_levels := []
    loop_levels := []
    declaration_point := 0
    declared_temps := []
    label_counter := 0
    labelNames := fun _ => none
    labelMeta := fun _ => none
    visitLog := [] }

/-- Append one line to buffer `c` (the sink's putln). -/
def putln (c : Nat) (l : String) (s : GenState) : GenState :=
  { s with bufs := Function.update s.bufs c (s.bufs c ++ [Item.line l]) }

/-- Append several lines to buffer `c`, in order. -/
def putLines (c : Nat) (ls : List String) (s : GenState) : GenState :=
  ls.foldl (fun st l => putln c l st) s

/-- Create an insertion point at the current end of buffer `c`: a fresh
buffer is allocated and referenced there; later writes to the fresh
buffer appear at this position in the final output. -/
def insertionPoint (c : Nat) (s : GenState) : Nat × GenState :=
  (s.nextId,
   { s with
      nextId := s.nextId + 1
      bufs := Function.update s.bufs c (s.bufs c ++ [Item.sub s.nextId]) })

/-- Record a visit in the observation log (entered on every dispatch). -/
def logVisit (n : Node) (s : GenState) : GenState :=
  { s with visitLog := s.visitLog ++ [n] }

/-- Push a fresh declaration-level and a fresh loop-level insertion
point (codegen.py lines 81-82).  The top of each stack is the list
head. -/
def pushLevels (s : GenState) : GenState :=
  let p1 := insertionPoint 0 s
  let s1 := { p1.2 with declaration_levels := p1.1 :: (p1.2).declaration_levels }
  let p2 := insertionPoint 0 s1
  { p2.2 with loop_levels := p2.1 :: (p2.2).loop_levels }

/-- Pop both level stacks (codegen.py lines 97-98). -/
def popLevels (s : GenState) : GenState :=
  { s with
      declaration_levels := s.declaration_levels.tail
      loop_levels := s.loop_levels.tail }

/-- Level-stack action on entering a `For` body (codegen.py lines
80-82): tiled loops share the enclosing scope and push nothing. -/
def forEnterLevels (tiled : Bool) (s : GenState) : GenState :=
  if tiled then s else pushLevels s

/-- Level-stack action after disposal emission (codegen.py lines
96-98). -/
def forExitLevels (tiled : Bool) (s : GenState) : GenState :=
  if tiled then s else popLevels s

/-- Join rendered fragments with a comma, as a join with a comma
separator does in the source. -/
def joinComma (l : List String) : String := String.intercalate ", " l

/-! ## The generic traversal plumbing -/

/-- Sequencing of fallible state-passing visits (the Option analogue of
the generator aborting on a fatal fault). -/
def obind {α β : Type} (x : Option (α × GenState)) (f : α → GenState → Option (β × GenState)) :
    Option (β × GenState) :=
  match x with
  | none => none
  | some (a, s) => f a s

/-- Modelled from the spec: result aggregation over a child list
(`visit_childlist` inside `results`, spec section 4.1) — each element is
visited in order and the rendered strings are collected; the engine
(minivisitor) is not under src/. -/
def visitSeq (v : Node → GenState → Option (String × GenState)) :
    List Node → GenState → Option (List String × GenState)
  | [], s => some ([], s)
  | x :: xs, s =>
    obind (v x s) fun r s1 =>
    obind (visitSeq v xs s1) fun rs s2 =>
    some (r :: rs, s2)

/-- Rendering of the typed variables of one `FunctionArgument`
(codegen.py lines 61-64): each variable is rendered as its declared type
followed by its visit result; a variable without a type attribute is a
fatal fault. -/
def visitArgsSeq (declTy : String → String) (v : Node → GenState → Option (String × GenState)) :
    List Node → GenState → Option (List String × GenState)
  | [], s => some ([], s)
  | x :: xs, s =>
    match nodeTypeOf x with
    | none => none
    | some ty =>
      obind (v x s) fun r s1 =>
      obind (visitArgsSeq declTy v xs s1) fun rs s2 =>
      some ((declTy ty ++ " " ++ r) :: rs, s2)

/-- Modelled from the spec: a direct `visit` of an optional child
(spec sections 4.1 and 7) — dispatch on an absent node is a fatal
failure, unlike the null-safe `visitchild` wrapper. -/
def clauseVisit (v : Node → GenState → Option (String × GenState)) :
    Option Node → GenState → Option (String × GenState)
  | none, _ => none
  | some x, s => v x s

/-! ## The primary code generator (class CCodeGen)

Each arm below embeds the correspondingly named handler of codegen.py.
Fuel decreases on every dispatch; a run of the Python generator on a
tree of depth d corresponds to any fuel above d. -/

def visitF (ctx : Context) : Nat → Node → GenState → Option (String × GenState)
  | 0, _, _ => none
  | fuel+1, n, s0 =>
    let s := logVisit n s0
    match n with
    | .FunctionNode name spec_name args body =>
      -- visit_FunctionNode, lines 47-59.  The mangled name is also
      -- stored on the node in the source (node.mangled_name); no claim
      -- concerns that attribute, so the side table is omitted here.
      let mangled := s.mangle (name ++ spec_name)
      obind (visitSeq (visitF ctx fuel) args s) fun argStrs s1 =>
      let proto := "static int " ++ mangled ++ "(" ++ joinComma argStrs ++ ")"
      let s2 := { s1 with protoLines := s1.protoLines ++ [proto ++ ";"] }
      let s3 := putln 0 (proto ++ " \x7b") s2
      let p := insertionPoint 0 s3
      let s4 := { p.2 with declaration_point := p.1 }
      -- visitchildren(node): generic recursion into arguments then body.
      obind (visitSeq (visitF ctx fuel) args s4) fun _ s5 =>
      obind (visitF ctx fuel body s5) fun _ s6 =>
      some ("", putln 0 "\x7d" s6)
    | .FunctionArgument vs =>
      -- visit_FunctionArgument, lines 61-64.
      obind (visitArgsSeq ctx.declare_type (visitF ctx fuel) vs s) fun strs s1 =>
      some (joinComma strs, s1)
    | .StatListNode stats =>
      -- visit_StatListNode, lines 66-68 (the source returns the node
      -- itself, which is never interpolated; rendered here as "").
      obind (visitSeq (visitF ctx fuel) stats s) fun _ s1 =>
      some ("", s1)
    | .ForNode initc cond stepc body tiled =>
      -- visit_ForNode, lines 70-100.
      let hasErr := ctx.may_error body
      obind (clauseVisit (visitF ctx fuel) initc s) fun ei s1 =>
      obind (clauseVisit (visitF ctx fuel) cond s1) fun ec s2 =>
      obind (clauseVisit (visitF ctx fuel) stepc s2) fun es s3 =>
      let s4 := putln 0 ("for (" ++ ei ++ "; " ++ ec ++ "; " ++ es ++ ") \x7b") s3
      let s5 := forEnterLevels tiled s4
      obind (clauseVisit (visitF ctx fuel) initc s5) fun _ s6 =>
      obind (visitF ctx fuel body s6) fun _ s7 =>
      -- Lines 87-92: on the error path, catch resumes here, then the
      -- disposal insertion point is taken, then the error cascades.
      -- The pair holds (disposal_point, state); exactly as in the
      -- source, the disposal_point component is computed but never
      -- used again: line 94 hands the main stream, not the disposal
      -- insertion point, to generate_disposal_code.
      let pe :=
        if hasErr then
          let sA := putLines 0 ctx.catchLines s7
          let p := insertionPoint 0 sA
          (p.1, putLines 0 ctx.cascadeLines p.2)
        else
          (0, s7)
      let s9 := putLines 0 (ctx.disposalLines body) pe.2
      let s10 := forExitLevels tiled s9
      some ("", putln 0 "\x7d" s10)
    | .ReturnNode op =>
      -- visit_ReturnNode, lines 102-103.
      obind (visitF ctx fuel op s) fun r s1 =>
      some ("", putln 0 ("return " ++ r ++ ";") s1)
    | .BinopNode op l r =>
      -- visit_BinopNode, lines 105-108.
      obind (visitF ctx fuel l s) fun rl s1 =>
      obind (visitF ctx fuel r s1) fun rr s2 =>
      some ("(" ++ rl ++ " " ++ op ++ " " ++ rr ++ ")", s2)
    | .UnopNode op e =>
      -- visit_UnopNode, lines 110-111.
      obind (visitF ctx fuel e s) fun re s1 =>
      some ("(" ++ op ++ re ++ ")", s1)
    | .TempNode nm ty =>
      -- visit_TempNode, lines 113-120: declare once per run, at the
      -- captured declaration point of the enclosing function.
      let r := s.mangle nm
      if r ∈ s.declared_temps then some (r, s)
      else
        let s1 := { s with declared_temps := r :: s.declared_temps }
        some (r, putln s1.declaration_point (ctx.declare_type ty ++ " " ++ r ++ ";") s1)
    | .AssignmentExpr l r =>
      -- visit_AssignmentExpr, lines 122-123.
      obind (visitF ctx fuel l s) fun rl s1 =>
      obind (visitF ctx fuel r s1) fun rr s2 =>
      some (rl ++ " = " ++ rr, s2)
    | .AssignmentNode e =>
      -- visit_AssignmentNode, lines 125-126.
      obind (visitF ctx fuel e s) fun re s1 =>
      some ("", putln 0 (re ++ ";") s1)
    | .CastNode ty e =>
      -- visit_CastNode, lines 128-130.
      obind (visitF ctx fuel e s) fun re s1 =>
      some ("((" ++ ctx.declare_type ty ++ ") " ++ re ++ ")", s1)
    | .DereferenceNode e =>
      -- visit_DereferenceNode, lines 132-133.
      obind (visitF ctx fuel e s) fun re s1 =>
      some ("(*" ++ re ++ ")", s1)
    | .SingleIndexNode l r =>
      -- visit_SingleIndexNode, lines 135-136.
      obind (visitF ctx fuel l s) fun rl s1 =>
      obind (visitF ctx fuel r s1) fun rr s2 =>
      some ("(" ++ rl ++ "[" ++ rr ++ "])", s2)
    | .ArrayAttribute nm =>
      -- visit_ArrayAttribute, lines 138-139: the name, verbatim.
      some (nm, s)
    | .Variable nm _ =>
      -- visit_Variable, lines 141-142: the sink-mangled name.
      some (s.mangle nm, s)
    | .JumpNode lbl =>
      -- visit_JumpNode, lines 144-145.
      obind (visitF ctx fuel lbl s) fun r s1 =>
      some ("", putln 0 ("goto " ++ r ++ ";") s1)
    | .JumpTargetNode lbl =>
      -- visit_JumpTargetNode, lines 147-148.
      obind (visitF ctx fuel lbl s) fun r s1 =>
      some ("", putln 0 (r ++ ":") s1)
    | .LabelNode id nm =>
      -- visit_LabelNode, lines 150-154: assign on first visit only,
      -- from the base name and the monotonically increasing counter;
      -- memoized in the side table.  labelMeta is the ghost record of
      -- the same assignment.
      match s.labelNames id with
      | some m => some (m, s)
      | none =>
        let fresh := nm ++ natToDec s.label_counter
        some (fresh,
          { s with
              labelNames := Function.update s.labelNames id (some fresh)
              labelMeta := Function.update s.labelMeta id (some (nm, s.label_counter))
              label_counter := s.label_counter + 1 })
    | .ConstantNode v =>
      -- visit_ConstantNode, lines 156-157.
      some (intToDec v, s)

/-- Rendered result of a visit, when it succeeds. -/
def runRes (ctx : Context) (fuel : Nat) (n : Node) (s : GenState) : Option String :=
  (visitF ctx fuel n s).map Prod.fst

/-- State after a visit; the starting state if the visit aborts. -/
def runStateD (ctx : Context) (fuel : Nat) (n : Node) (s : GenState) : GenState :=
  ((visitF ctx fuel n s).map Prod.snd).getD s

/-! ## The visit trace

Pure description of the dispatch order of `visitF`: the node itself,
then the traces of the visits its handler performs, in order.  It
mirrors `visitF` case by case (in particular the `For` handler visits
`init` twice and the `Function` handler visits its argument list twice:
once for rendering, once inside the generic child recursion). -/

def traceO (t : Node → List Node) : Option Node → List Node
  | none => []
  | some x => t x

def traceF : Nat → Node → List Node
  | 0, _ => []
  | fuel+1, n =>
    n ::
    match n with
    | .FunctionNode _ _ args body =>
      args.flatMap (traceF fuel) ++ args.flatMap (traceF fuel) ++ traceF fuel body
    | .FunctionArgument vs => vs.flatMap (traceF fuel)
    | .StatListNode stats => stats.flatMap (traceF fuel)
    | .ForNode i c st b _ =>
      traceO (traceF fuel) i ++ traceO (traceF fuel) c ++ traceO (traceF fuel) st ++
        traceO (traceF fuel) i ++ traceF fuel b
    | .ReturnNode op => traceF fuel op
    | .BinopNode _ l r => traceF fuel l ++ traceF fuel r
    | .UnopNode _ e => traceF fuel e
    | .TempNode _ _ => []
    | .AssignmentExpr l r => traceF fuel l ++ traceF fuel r
    | .AssignmentNode e => traceF fuel e
    | .CastNode _ e => traceF fuel e
    | .DereferenceNode e => traceF fuel e
    | .SingleIndexNode l r => traceF fuel l ++ traceF fuel r
    | .ArrayAttribute _ => []
    | .Variable _ _ => []
    | .JumpNode l => traceF fuel l
    | .JumpTargetNode l => traceF fuel l
    | .LabelNode _ _ => []
    | .ConstantNode _ => []

/-! ## The cleanup traversal (class CodeGenCleanup)

The reduced visitor re-walks loop-header clauses after the body has
been finalized.  None of its handlers writes to the sink — visit_Node
only recurses and visit_ForNode only visits init, condition and step —
so the embedding returns the list of visited nodes (the dispatch
trace), its only observable, and no sink state at all.  Failure is a
dispatch fault (an absent clause handed directly to visit). -/

def cleanupSeq (v : Node → Option (List Node)) : List Node → Option (List Node)
  | [] => some []
  | x :: xs =>
    match v x with
    | none => none
    | some t1 =>
      match cleanupSeq v xs with
      | none => none
      | some t2 => some (t1 ++ t2)

/-- Modelled from the spec: direct dispatch on an optional child fails
when the child is absent (spec sections 4.1 and 7). -/
def cleanupClause (v : Node → Option (List Node)) : Option Node → Option (List Node)
  | none => none
  | some x => v x

/-- Embedding of CodeGen.visitchild (codegen.py lines 24-27): the
null-safe wrapper returns immediately, visiting nothing, when the child
is absent.  The For handler of the cleanup visitor does NOT use it. -/
def cleanupVisitChild (v : Node → Option (List Node)) : Option Node → Option (List Node)
  | none => some []
  | some x => v x

/-- The cleanup visitor (codegen.py lines 29-37): visit_ForNode visits
only init, condition and step, never body; every other kind falls back
to visit_Node, generic recursion into all children. -/
def cleanupTF : Nat → Node → Option (List Node)
  | 0, _ => none
  | fuel+1, n =>
    match n with
    | .ForNode i c st b t =>
      match cleanupClause (cleanupTF fuel) i with
      | none => none
      | some ti =>
        match cleanupClause (cleanupTF fuel) c with
        | none => none
        | some tc =>
          match cleanupClause (cleanupTF fuel) st with
          | none => none
          | some ts => some (Node.ForNode i c st b t :: (ti ++ tc ++ ts))
    | _ => (cleanupSeq (cleanupTF fuel) (childrenOf n)).map (n :: ·)

/-- Presence of all three header clauses on every `For` node of a
tree (the domain on which the cleanup For handler is total). -/
def cpF : Nat → Node → Bool
  | 0, _ => false
  | fuel+1, n =>
    (match n with
     | .ForNode i c st _ _ => i.isSome && c.isSome && st.isSome
     | _ => true) &&
    (childrenOf n).all (cpF fuel)

/-! ## Final output linearization

Modelled from the spec: the sink's final output flushes the prototype
stream first, then linearizes the buffer tree from buffer 0 (spec
sections 5 and 6); the sink implementation is not under src/.  Every
sub-buffer reference points to a buffer allocated later (a strictly
larger identifier), so `nextId` bounds the reference chains and
suffices as fuel. -/

def flattenAux (bufs : Nat → List Item) : Nat → Nat → List String
  | 0, _ => []
  | fuel+1, c =>
    (bufs c).flatMap fun it =>
      match it with
      | .line l => [l]
      | .sub j => flattenAux bufs fuel j

def finalOutput (s : GenState) : List String :=
  s.protoLines ++ flattenAux s.bufs s.nextId 0

/-! ## Label invariant

Relation between the ghost assignment record, the visible label name
table and the counter: every recorded assignment used a counter value
below the current one, produced exactly the stored name, and no two
labels share a counter value. -/

def labelInv (s : GenState) : Prop :=
  (∀ id b k, s.labelMeta id = some (b, k) →
      k < s.label_counter ∧ s.labelNames id = some (b ++ natToDec k)) ∧
  (∀ id1 id2 b1 b2 k, s.labelMeta id1 = some (b1, k) → s.labelMeta id2 = some (b2, k) →
      id1 = id2) ∧
  (∀ id, s.labelNames id = none ↔ s.labelMeta id = none)

/-- Per-visit state relation: the components every successful visit
preserves, plus the visit-log extension.  Levels are preserved exactly
(pushes inside a For are matched by its pop); the mangling rule is
immutable; an assigned label name is never overwritten; the label
invariant is maintained. -/
def Step (t : List Node) (s s' : GenState) : Prop :=
  s'.mangle = s.mangle ∧
  s'.declaration_levels = s.declaration_levels ∧
  s'.loop_levels = s.loop_levels ∧
  (∀ id m, s.labelNames id = some m → s'.labelNames id = some m) ∧
  (labelInv s → labelInv s') ∧
  s'.visitLog = s.visitLog ++ t

/-- Weakening of `Step` without the level-stack equalities, used across
the push/pop segment of a non-tiled loop. -/
def StepL (t : List Node) (s s' : GenState) : Prop :=
  s'.mangle = s.mangle ∧
  (∀ id m, s.labelNames id = some m → s'.labelNames id = some m) ∧
  (labelInv s → labelInv s') ∧
  s'.visitLog = s.visitLog ++ t

/-! ## Concrete scenarios -/

/-- Identity mangling rule (the identity-like rule of the round-trip
scenario). -/
def mangleId : String → String := fun x => x

/-- A non-identity mangling rule. -/
def mangleU : String → String := fun x => "u_" ++ x

/-- Context with no erroring bodies and identity type rendering. -/
def ctxPlain : Context :=
  { declare_type := fun t => t
    may_error := fun _ => false
    catchLines := []
    cascadeLines := []
    disposalLines := fun _ => [] }

/-- Context whose bodies may error, with marker lines for the catch
point, the cascade and the disposal code. -/
def ctxErr : Context :=
  { declare_type := fun t => t
    may_error := fun _ => true
    catchLines := ["CATCH"]
    cascadeLines := ["CASCADE"]
    disposalLines := fun _ => ["DISPOSE"] }

/-- Loop body used in the erroring-loop scenario. -/
def bodyBug : Node := .AssignmentNode (.AssignmentExpr (.Variable "x" "int") (.ConstantNode 1))

/-- A non-tiled For node whose body may error. -/
def forBug : Node :=
  .ForNode (some (.AssignmentExpr (.Variable "i" "int") (.ConstantNode 0)))
    (some (.BinopNode "<" (.Variable "i" "int") (.ConstantNode 10)))
    (some (.UnopNode "++" (.Variable "i" "int")))
    bodyBug false

/-- The round-trip scenario function: f with one integer argument x and
body return x + 1. -/
def fnRoundTrip : Node :=
  .FunctionNode "f" "" [.FunctionArgument [.Variable "x" "int"]]
    (.StatListNode [.ReturnNode (.BinopNode "+" (.Variable "x" "int") (.ConstantNode 1))])

/-- Eleven jump targets whose labels collide under the base-name plus
counter scheme: base b1 at counter 0 and base b at counter 10 both
render as b10. -/
def collideTree : Node :=
  .StatListNode
    [.JumpTargetNode (.LabelNode 0 "b1"), .JumpTargetNode (.LabelNode 1 "x"),
     .JumpTargetNode (.LabelNode 2 "x"), .JumpTargetNode (.LabelNode 3 "x"),
     .JumpTargetNode (.LabelNode 4 "x"), .JumpTargetNode (.LabelNode 5 "x"),
     .JumpTargetNode (.LabelNode 6 "x"), .JumpTargetNode (.LabelNode 7 "x"),
     .JumpTargetNode (.LabelNode 8 "x"), .JumpTargetNode (.LabelNode 9 "x"),
     .JumpTargetNode (.LabelNode 10 "b")]

/-- Two distinct labels with the same base name. -/
def sameBaseTree : Node :=
  .StatListNode [.JumpTargetNode (.LabelNode 0 "L"), .JumpTargetNode (.LabelNode 1 "L")]

/-- Init clause of the double-visit scenario. -/
def initClause7 : Node := .AssignmentExpr (.Variable "q" "int") (.ConstantNode 0)

/-- Condition clause of the double-visit scenario. -/
def condClause7 : Node := .BinopNode "<" (.Variable "q" "int") (.ConstantNode 3)

/-- Step clause of the double-visit scenario. -/
def stepClause7 : Node := .UnopNode "++" (.Variable "q" "int")

/-- Body of the double-visit scenario. -/
def body7 : Node := .AssignmentNode (.AssignmentExpr (.Variable "z" "int") (.ConstantNode 1))

/-- Observer recognizing exactly the init clause of the double-visit
scenario. -/
def probe7 : Node → Bool
  | .AssignmentExpr (.Variable "q" _) (.ConstantNode 0) => true
  | _ => false

/-- A For node with all three header clauses present. -/
def presentFor : Node :=
  .ForNode (some (.ConstantNode 0)) (some (.ConstantNode 1)) (some (.ConstantNode 2))
    (.ReturnNode (.ConstantNode 3)) false


/-! # Theorems -/

/-! ## Decimal rendering is injective -/

theorem digitChar_inj_lt : ∀ a, a < 10 → ∀ b, b < 10 → Nat.digitChar a = Nat.digitChar b → a = b := by
  decide

theorem natToDecAux_congr : ∀ f g n, n < f → n < g → natToDecAux f n = natToDecAux g n := by
  intro f
  induction f with
  | zero => intro g n hf; omega
  | succ f ih =>
    intro g n hf hg
    cases g with
    | zero => omega
    | succ g =>
      by_cases h10 : n < 10
      · simp [natToDecAux, h10]
      · have hdiv : n / 10 < n := Nat.div_lt_self (by omega) (by omega)
        simp only [natToDecAux, if_neg h10]
        rw [ih g (n / 10) (by omega) (by omega)]

theorem decChars_lt {n : Nat} (h : n < 10) : decChars n = [Nat.digitChar n] := by
  simp [decChars, natToDecAux, h]

theorem decChars_ge {n : Nat} (h : 10 ≤ n) :
    decChars n = decChars (n / 10) ++ [Nat.digitChar (n % 10)] := by
  have h1 : natToDecAux (n + 1) n = natToDecAux n (n / 10) ++ [Nat.digitChar (n % 10)] := by
    simp [natToDecAux, if_neg (show ¬ n < 10 by omega)]
  have h2 : natToDecAux n (n / 10) = natToDecAux (n / 10 + 1) (n / 10) :=
    natToDecAux_congr n (n / 10 + 1) (n / 10) (Nat.div_lt_self (by omega) (by omega)) (by omega)
  show natToDecAux (n + 1) n = natToDecAux (n / 10 + 1) (n / 10) ++ [Nat.digitChar (n % 10)]
  rw [h1, h2]

theorem decChars_ne_nil (n : Nat) : decChars n ≠ [] := by
  by_cases h : n < 10
  · simp [decChars_lt h]
  · simp [decChars_ge (show 10 ≤ n by omega)]

theorem decChars_inj : ∀ n m, decChars n = decChars m → n = m := by
  intro n
  induction n using Nat.strong_induction_on with
  | _ n ih =>
    intro m h
    by_cases hn : n < 10
    · by_cases hm : m < 10
      · rw [decChars_lt hn, decChars_lt hm] at h
        simp at h
        exact digitChar_inj_lt n hn m hm h
      · rw [decChars_lt hn, decChars_ge (show 10 ≤ m by omega)] at h
        cases hd : decChars (m / 10) with
        | nil => exact absurd hd (decChars_ne_nil _)
        | cons y ys =>
          rw [hd] at h
          simp at h
    · by_cases hm : m < 10
      · rw [decChars_ge (show 10 ≤ n by omega), decChars_lt hm] at h
        cases hd : decChars (n / 10) with
        | nil => exact absurd hd (decChars_ne_nil _)
        | cons y ys =>
          rw [hd] at h
          simp at h
      · rw [decChars_ge (show 10 ≤ n by omega), decChars_ge (show 10 ≤ m by omega)] at h
        obtain ⟨h1, h2⟩ := List.append_inj' h rfl
        simp at h2
        have hmod : n % 10 = m % 10 :=
          digitChar_inj_lt _ (Nat.mod_lt _ (by omega)) _ (Nat.mod_lt _ (by omega)) h2
        have hdivlt : n / 10 < n := Nat.div_lt_self (by omega) (by omega)
        have hdiveq : n / 10 = m / 10 := ih (n / 10) hdivlt (m / 10) h1
        omega

theorem natToDec_inj {n m : Nat} (h : natToDec n = natToDec m) : n = m := by
  apply decChars_inj
  simpa [natToDec, List.asString] using congrArg String.data h

theorem strAppend_left_cancel {a b c : String} (h : a ++ b = a ++ c) : b = c := by
  have hd : a.data ++ b.data = a.data ++ c.data := by
    simpa [String.data_append] using congrArg String.data h
  cases b
  cases c
  exact congrArg String.mk (List.append_cancel_left hd)

/-! ## Step lemmas: what every primitive sink action preserves -/

theorem Step_refl (s : GenState) : Step [] s s :=
  ⟨rfl, rfl, rfl, fun _ _ h => h, fun h => h, by simp⟩

theorem Step_trans {t1 t2 : List Node} {s s1 s2 : GenState}
    (h1 : Step t1 s s1) (h2 : Step t2 s1 s2) : Step (t1 ++ t2) s s2 := by
  obtain ⟨a1, b1, c1, d1, e1, f1⟩ := h1
  obtain ⟨a2, b2, c2, d2, e2, f2⟩ := h2
  exact ⟨a2.trans a1, b2.trans b1, c2.trans c1, fun id m h => d2 id m (d1 id m h),
    fun h => e2 (e1 h), by simp [f2, f1]⟩

theorem Step_eq {t1 t2 : List Node} {s s' : GenState} (h : Step t1 s s') (ht : t1 = t2) :
    Step t2 s s' := ht ▸ h

theorem putln_step (c : Nat) (l : String) (s : GenState) : Step [] s (putln c l s) :=
  ⟨rfl, rfl, rfl, fun _ _ h => h, fun h => h, by simp [putln]⟩

theorem putLines_step (c : Nat) (ls : List String) : ∀ s, Step [] s (putLines c ls s) := by
  induction ls with
  | nil => intro s; exact Step_refl s
  | cons l ls ih =>
    intro s
    have h1 : putLines c (l :: ls) s = putLines c ls (putln c l s) := by
      simp [putLines]
    rw [h1]
    exact Step_eq (Step_trans (putln_step c l s) (ih (putln c l s))) rfl

theorem insertionPoint_step (c : Nat) (s : GenState) : Step [] s (insertionPoint c s).2 :=
  ⟨rfl, rfl, rfl, fun _ _ h => h, fun h => h, by simp [insertionPoint]⟩

theorem logVisit_step (n : Node) (s : GenState) : Step [n] s (logVisit n s) :=
  ⟨rfl, rfl, rfl, fun _ _ h => h, fun h => h, by simp [logVisit]⟩

theorem obind_some {α β : Type} {x : Option (α × GenState)}
    {f : α → GenState → Option (β × GenState)} {b : β} {s' : GenState}
    (h : obind x f = some (b, s')) : ∃ a s1, x = some (a, s1) ∧ f a s1 = some (b, s') := by
  cases x with
  | none => simp [obind] at h
  | some p =>
    obtain ⟨a, s1⟩ := p
    exact ⟨a, s1, rfl, h⟩

theorem visitSeq_step {v : Node → GenState → Option (String × GenState)} {tr : Node → List Node}
    (H : ∀ x s r s', v x s = some (r, s') → Step (tr x) s s') :
    ∀ l s rs s', visitSeq v l s = some (rs, s') → Step (l.flatMap tr) s s' := by
  intro l
  induction l with
  | nil =>
    intro s rs s' h
    simp only [visitSeq] at h
    obtain ⟨rfl, rfl⟩ := by simpa using h
    exact Step_refl s
  | cons x xs ih =>
    intro s rs s' h
    simp only [visitSeq] at h
    obtain ⟨r1, s1, h1, h2⟩ := obind_some h
    obtain ⟨r2, s2, h3, h4⟩ := obind_some h2
    obtain ⟨rfl, rfl⟩ := by simpa using h4
    exact Step_eq (Step_trans (H x s r1 s1 h1) (ih s1 r2 s2 h3)) (by simp)

theorem visitArgsSeq_step {dt : String → String}
    {v : Node → GenState → Option (String × GenState)} {tr : Node → List Node}
    (H : ∀ x s r s', v x s = some (r, s') → Step (tr x) s s') :
    ∀ l s rs s', visitArgsSeq dt v l s = some (rs, s') → Step (l.flatMap tr) s s' := by
  intro l
  induction l with
  | nil =>
    intro s rs s' h
    simp only [visitArgsSeq] at h
    obtain ⟨rfl, rfl⟩ := by simpa using h
    exact Step_refl s
  | cons x xs ih =>
    intro s rs s' h
    simp only [visitArgsSeq] at h
    cases hty : nodeTypeOf x with
    | none => rw [hty] at h; exact absurd h (by simp)
    | some ty =>
      rw [hty] at h
      obtain ⟨r1, s1, h1, h2⟩ := obind_some h
      obtain ⟨r2, s2, h3, h4⟩ := obind_some h2
      obtain ⟨rfl, rfl⟩ := by simpa using h4
      exact Step_eq (Step_trans (H x s r1 s1 h1) (ih s1 r2 s2 h3)) (by simp)

theorem Step.toL {t : List Node} {s s' : GenState} (h : Step t s s') : StepL t s s' :=
  ⟨h.1, h.2.2.2.1, h.2.2.2.2.1, h.2.2.2.2.2⟩

theorem StepL_trans {t1 t2 : List Node} {s s1 s2 : GenState}
    (h1 : StepL t1 s s1) (h2 : StepL t2 s1 s2) : StepL (t1 ++ t2) s s2 := by
  obtain ⟨a1, d1, e1, f1⟩ := h1
  obtain ⟨a2, d2, e2, f2⟩ := h2
  exact ⟨a2.trans a1, fun id m h => d2 id m (d1 id m h), fun h => e2 (e1 h), by simp [f2, f1]⟩

theorem StepL_eq {t1 t2 : List Node} {s s' : GenState} (h : StepL t1 s s') (ht : t1 = t2) :
    StepL t2 s s' := ht ▸ h

theorem mkStep {t : List Node} {s s' : GenState} (h : StepL t s s')
    (hd : s'.declaration_levels = s.declaration_levels)
    (hl : s'.loop_levels = s.loop_levels) : Step t s s' :=
  ⟨h.1, hd, hl, h.2.1, h.2.2.1, h.2.2.2⟩

theorem pushLevels_stepL (s : GenState) : StepL [] s (pushLevels s) :=
  ⟨rfl, fun _ _ h => h, fun h => h, by simp [pushLevels, insertionPoint]⟩

theorem pushLevels_decl (s : GenState) :
    (pushLevels s).declaration_levels = s.nextId :: s.declaration_levels := by
  simp [pushLevels, insertionPoint]

theorem pushLevels_loop (s : GenState) :
    (pushLevels s).loop_levels = (s.nextId + 1) :: s.loop_levels := by
  simp [pushLevels, insertionPoint]

theorem popLevels_stepL (s : GenState) : StepL [] s (popLevels s) :=
  ⟨rfl, fun _ _ h => h, fun h => h, by simp [popLevels]⟩

theorem labelInv_assign {s s' : GenState} {id0 : Nat} {nm : String}
    (hnames : s'.labelNames = Function.update s.labelNames id0 (some (nm ++ natToDec s.label_counter)))
    (hmeta : s'.labelMeta = Function.update s.labelMeta id0 (some (nm, s.label_counter)))
    (hctr : s'.label_counter = s.label_counter + 1)
    (h : s.labelNames id0 = none) (hinv : labelInv s) : labelInv s' := by
  obtain ⟨i1, i2, i3⟩ := hinv
  have hmeta0 : s.labelMeta id0 = none := (i3 id0).mp h
  refine ⟨?_, ?_, ?_⟩
  · intro id b k hm
    rw [hmeta] at hm
    rw [hnames, hctr]
    by_cases hid : id = id0
    · subst hid
      rw [Function.update_same] at hm
      have hbk : nm = b ∧ s.label_counter = k := by simpa using hm
      obtain ⟨rfl, rfl⟩ := hbk
      exact ⟨by omega, by rw [Function.update_same]⟩
    · rw [Function.update_noteq hid] at hm
      obtain ⟨hk, hn⟩ := i1 id b k hm
      exact ⟨by omega, by rw [Function.update_noteq hid]; exact hn⟩
  · intro id1 id2 b1 b2 k hm1 hm2
    rw [hmeta] at hm1 hm2
    by_cases h1 : id1 = id0 <;> by_cases h2 : id2 = id0
    · rw [h1, h2]
    · subst h1
      rw [Function.update_same] at hm1
      rw [Function.update_noteq h2] at hm2
      have hk : s.label_counter = k := by
        have hh := hm1
        simp at hh
        exact hh.2
      have hlt := (i1 id2 b2 k hm2).1
      omega
    · subst h2
      rw [Function.update_same] at hm2
      rw [Function.update_noteq h1] at hm1
      have hk : s.label_counter = k := by
        have hh := hm2
        simp at hh
        exact hh.2
      have hlt := (i1 id1 b1 k hm1).1
      omega
    · rw [Function.update_noteq h1] at hm1
      rw [Function.update_noteq h2] at hm2
      exact i2 id1 id2 b1 b2 k hm1 hm2
  · intro id
    rw [hnames, hmeta]
    by_cases hid : id = id0
    · subst hid
      rw [Function.update_same, Function.update_same]
      simp
    · rw [Function.update_noteq hid, Function.update_noteq hid]
      exact i3 id

theorem forEnterLevels_true (s : GenState) : forEnterLevels true s = s := rfl

theorem forEnterLevels_false (s : GenState) : forEnterLevels false s = pushLevels s := rfl

theorem forExitLevels_true (s : GenState) : forExitLevels true s = s := rfl

theorem forExitLevels_false (s : GenState) : forExitLevels false s = popLevels s := rfl

theorem clauseVisit_some {v : Node → GenState → Option (String × GenState)}
    {o : Option Node} {s : GenState} {r : String} {s' : GenState}
    (h : clauseVisit v o s = some (r, s')) : ∃ x, o = some x ∧ v x s = some (r, s') := by
  cases o with
  | none => simp [clauseVisit] at h
  | some x => exact ⟨x, rfl, h⟩

theorem forEnterLevels_stepL (tiled : Bool) (s : GenState) :
    StepL [] s (forEnterLevels tiled s) := by
  cases tiled
  · exact pushLevels_stepL s
  · exact Step.toL (Step_refl s)

theorem forExitLevels_stepL (tiled : Bool) (s : GenState) :
    StepL [] s (forExitLevels tiled s) := by
  cases tiled
  · exact popLevels_stepL s
  · exact Step.toL (Step_refl s)

theorem forEnterLevels_decl (tiled : Bool) (s : GenState) :
    (forEnterLevels tiled s).declaration_levels =
      (if tiled then s.declaration_levels else s.nextId :: s.declaration_levels) := by
  cases tiled
  · simp [forEnterLevels_false, pushLevels_decl]
  · simp [forEnterLevels_true]

theorem forEnterLevels_loop (tiled : Bool) (s : GenState) :
    (forEnterLevels tiled s).loop_levels =
      (if tiled then s.loop_levels else (s.nextId + 1) :: s.loop_levels) := by
  cases tiled
  · simp [forEnterLevels_false, pushLevels_loop]
  · simp [forEnterLevels_true]

/-- Behavior of the whole tail of For lowering after the body visit:
optional catch/cascade emission around the (unused) disposal insertion
point, the disposal emission at the main stream, the level pop (unless
tiled) and the closing brace: no level effect beyond removing the
pushed pair, and no other state effect. -/
theorem forTail_step (ctx : Context) (body : Node) (tiled : Bool) (s7 : GenState) :
    StepL [] s7 (putln 0 "\x7d" (forExitLevels tiled (putLines 0 (ctx.disposalLines body)
        (if ctx.may_error body then
          ((insertionPoint 0 (putLines 0 ctx.catchLines s7)).1,
            putLines 0 ctx.cascadeLines (insertionPoint 0 (putLines 0 ctx.catchLines s7)).2)
        else (0, s7)).2))) ∧
    (putln 0 "\x7d" (forExitLevels tiled (putLines 0 (ctx.disposalLines body)
        (if ctx.may_error body then
          ((insertionPoint 0 (putLines 0 ctx.catchLines s7)).1,
            putLines 0 ctx.cascadeLines (insertionPoint 0 (putLines 0 ctx.catchLines s7)).2)
        else (0, s7)).2))).declaration_levels =
      (if tiled then s7.declaration_levels else s7.declaration_levels.tail) ∧
    (putln 0 "\x7d" (forExitLevels tiled (putLines 0 (ctx.disposalLines body)
        (if ctx.may_error body then
          ((insertionPoint 0 (putLines 0 ctx.catchLines s7)).1,
            putLines 0 ctx.cascadeLines (insertionPoint 0 (putLines 0 ctx.catchLines s7)).2)
        else (0, s7)).2))).loop_levels =
      (if tiled then s7.loop_levels else s7.loop_levels.tail) := by
  have SY : Step [] s7 (putLines 0 (ctx.disposalLines body)
      (if ctx.may_error body then
        ((insertionPoint 0 (putLines 0 ctx.catchLines s7)).1,
          putLines 0 ctx.cascadeLines (insertionPoint 0 (putLines 0 ctx.catchLines s7)).2)
      else (0, s7)).2) := by
    cases hME : ctx.may_error body
    · simp only [hME, Bool.false_eq_true, if_false]
      exact putLines_step 0 (ctx.disposalLines body) s7
    · simp only [hME, if_true]
      exact Step_eq (Step_trans (putLines_step 0 ctx.catchLines s7)
        (Step_trans (insertionPoint_step 0 _) (Step_trans (putLines_step 0 ctx.cascadeLines _)
          (putLines_step 0 (ctx.disposalLines body) _)))) (by simp)
  refine ⟨?_, ?_, ?_⟩
  · exact StepL_eq (StepL_trans (Step.toL SY) (StepL_trans (forExitLevels_stepL tiled _)
      (Step.toL (putln_step 0 "\x7d" _)))) (by simp)
  · cases tiled
    · simp only [Bool.false_eq_true, if_false, forExitLevels_false, putln, popLevels]
      rw [SY.2.1]
    · simp only [forExitLevels_true, putln, if_true]
      exact SY.2.1
  · cases tiled
    · simp only [Bool.false_eq_true, if_false, forExitLevels_false, putln, popLevels]
      rw [SY.2.2.1]
    · simp only [forExitLevels_true, putln, if_true]
      exact SY.2.2.1

/-- Master run lemma: a successful visit preserves the mangling rule,
both level stacks and every assigned label name, maintains the label
invariant, and extends the visit log by exactly the visit trace of the
node. -/
theorem visitF_step :
    ∀ (ctx : Context) fuel n s r s', visitF ctx fuel n s = some (r, s') →
      Step (traceF fuel n) s s' := by
  intro ctx fuel
  induction fuel with
  | zero => intro n s r s' h; exact absurd h (by simp [visitF])
  | succ fuel ih =>
    intro n s r s' h
    cases n with
    | FunctionNode name spec_name args body =>
      simp only [visitF] at h
      obtain ⟨argStrs, s1, h1, h2⟩ := obind_some h
      obtain ⟨rs2, s5, h3, h4⟩ := obind_some h2
      obtain ⟨rb, s6, h5, h6⟩ := obind_some h4
      obtain ⟨rfl, rfl⟩ := by simpa using h6
      have A := logVisit_step (Node.FunctionNode name spec_name args body) s
      have S1 := visitSeq_step (fun x s r s' hx => ih x s r s' hx) args _ _ _ h1
      have B : Step [] s1 _ :=
        ⟨rfl, rfl, rfl, fun _ _ hh => hh, fun hh => hh, by simp [putln, insertionPoint]⟩
      have S2 := visitSeq_step (fun x s r s' hx => ih x s r s' hx) args _ _ _ h3
      have S3 := ih _ _ _ _ h5
      exact Step_eq
        (Step_trans A (Step_trans S1 (Step_trans B (Step_trans S2
          (Step_trans S3 (putln_step 0 "\x7d" s6))))))
        (by simp [traceF])
    | FunctionArgument vs =>
      simp only [visitF] at h
      obtain ⟨strs, s1, h1, h2⟩ := obind_some h
      obtain ⟨rfl, rfl⟩ := by simpa using h2
      have A := logVisit_step (Node.FunctionArgument vs) s
      have S1 := visitArgsSeq_step (fun x s r s' hx => ih x s r s' hx) vs _ _ _ h1
      exact Step_eq (Step_trans A S1) (by simp [traceF])
    | StatListNode stats =>
      simp only [visitF] at h
      obtain ⟨rs1, s1, h1, h2⟩ := obind_some h
      obtain ⟨rfl, rfl⟩ := by simpa using h2
      have A := logVisit_step (Node.StatListNode stats) s
      have S1 := visitSeq_step (fun x s r s' hx => ih x s r s' hx) stats _ _ _ h1
      exact Step_eq (Step_trans A S1) (by simp [traceF])
    | ForNode initc cond stepc body tiled =>
      simp only [visitF] at h
      obtain ⟨ei, s1, h1, h2⟩ := obind_some h
      obtain ⟨ec, s2, h3, h4⟩ := obind_some h2
      obtain ⟨es, s3, h5, h6⟩ := obind_some h4
      obtain ⟨ri, s6, h7, h8⟩ := obind_some h6
      obtain ⟨rb, s7, h9, h10⟩ := obind_some h8
      obtain ⟨rfl, rfl⟩ := by simpa using h10
      obtain ⟨iN, rfl, h1⟩ := clauseVisit_some h1
      obtain ⟨cN, rfl, h3⟩ := clauseVisit_some h3
      obtain ⟨sN, rfl, h5⟩ := clauseVisit_some h5
      simp only [clauseVisit] at h7
      have A := logVisit_step (Node.ForNode (some iN) (some cN) (some sN) body tiled) s
      have S1 := ih _ _ _ _ h1
      have S2 := ih _ _ _ _ h3
      have S3 := ih _ _ _ _ h5
      have P1 := putln_step 0 ("for (" ++ ei ++ "; " ++ ec ++ "; " ++ es ++ ") \x7b") s3
      have S4 := ih _ _ _ _ h7
      have S5 := ih _ _ _ _ h9
      have Spre := Step_trans A (Step_trans S1 (Step_trans S2 (Step_trans S3 P1)))
      have T := forTail_step ctx body tiled s7
      have Ltotal := StepL_trans (Step.toL Spre) (StepL_trans (forEnterLevels_stepL tiled _)
        (StepL_trans (Step.toL S4) (StepL_trans (Step.toL S5) T.1)))
      exact mkStep (StepL_eq Ltotal (by simp [traceF, traceO]))
        (by
          rw [T.2.1, S5.2.1, S4.2.1, forEnterLevels_decl]
          cases tiled
          · simp only [if_neg (by simp : ¬ (false : Bool) = true), List.tail_cons]
            exact Spre.2.1
          · simp only [if_pos rfl]
            exact Spre.2.1)
        (by
          rw [T.2.2, S5.2.2.1, S4.2.2.1, forEnterLevels_loop]
          cases tiled
          · simp only [if_neg (by simp : ¬ (false : Bool) = true), List.tail_cons]
            exact Spre.2.2.1
          · simp only [if_pos rfl]
            exact Spre.2.2.1)
    | ReturnNode op =>
      simp only [visitF] at h
      obtain ⟨r1, s1, h1, h2⟩ := obind_some h
      obtain ⟨rfl, rfl⟩ := by simpa using h2
      exact Step_eq (Step_trans (logVisit_step _ s) (Step_trans (ih _ _ _ _ h1)
        (putln_step 0 ("return " ++ r1 ++ ";") s1))) (by simp [traceF])
    | BinopNode op l r2 =>
      simp only [visitF] at h
      obtain ⟨rl, s1, h1, h2⟩ := obind_some h
      obtain ⟨rr, s2, h3, h4⟩ := obind_some h2
      obtain ⟨rfl, rfl⟩ := by simpa using h4
      exact Step_eq (Step_trans (logVisit_step _ s) (Step_trans (ih _ _ _ _ h1) (ih _ _ _ _ h3)))
        (by simp [traceF])
    | UnopNode op e =>
      simp only [visitF] at h
      obtain ⟨re, s1, h1, h2⟩ := obind_some h
      obtain ⟨rfl, rfl⟩ := by simpa using h2
      exact Step_eq (Step_trans (logVisit_step _ s) (ih _ _ _ _ h1)) (by simp [traceF])
    | TempNode nm ty =>
      simp only [visitF, logVisit] at h
      by_cases hmem : s.mangle nm ∈ s.declared_temps
      · rw [if_pos (by simpa using hmem)] at h
        obtain ⟨rfl, rfl⟩ := by simpa using h
        exact @Step_eq [Node.TempNode nm ty] _ s _
          ⟨rfl, rfl, rfl, fun _ _ hh => hh, fun hh => hh, by simp⟩ (by simp [traceF])
      · rw [if_neg (by simpa using hmem)] at h
        obtain ⟨rfl, rfl⟩ := by simpa using h
        exact @Step_eq [Node.TempNode nm ty] _ s _
          ⟨rfl, rfl, rfl, fun _ _ hh => hh, fun hh => hh, by simp [putln]⟩ (by simp [traceF])
    | AssignmentExpr l r2 =>
      simp only [visitF] at h
      obtain ⟨rl, s1, h1, h2⟩ := obind_some h
      obtain ⟨rr, s2, h3, h4⟩ := obind_some h2
      obtain ⟨rfl, rfl⟩ := by simpa using h4
      exact Step_eq (Step_trans (logVisit_step _ s) (Step_trans (ih _ _ _ _ h1) (ih _ _ _ _ h3)))
        (by simp [traceF])
    | AssignmentNode e =>
      simp only [visitF] at h
      obtain ⟨re, s1, h1, h2⟩ := obind_some h
      obtain ⟨rfl, rfl⟩ := by simpa using h2
      exact Step_eq (Step_trans (logVisit_step _ s) (Step_trans (ih _ _ _ _ h1)
        (putln_step 0 (re ++ ";") s1))) (by simp [traceF])
    | CastNode ty e =>
      simp only [visitF] at h
      obtain ⟨re, s1, h1, h2⟩ := obind_some h
      obtain ⟨rfl, rfl⟩ := by simpa using h2
      exact Step_eq (Step_trans (logVisit_step _ s) (ih _ _ _ _ h1)) (by simp [traceF])
    | DereferenceNode e =>
      simp only [visitF] at h
      obtain ⟨re, s1, h1, h2⟩ := obind_some h
      obtain ⟨rfl, rfl⟩ := by simpa using h2
      exact Step_eq (Step_trans (logVisit_step _ s) (ih _ _ _ _ h1)) (by simp [traceF])
    | SingleIndexNode l r2 =>
      simp only [visitF] at h
      obtain ⟨rl, s1, h1, h2⟩ := obind_some h
      obtain ⟨rr, s2, h3, h4⟩ := obind_some h2
      obtain ⟨rfl, rfl⟩ := by simpa using h4
      exact Step_eq (Step_trans (logVisit_step _ s) (Step_trans (ih _ _ _ _ h1) (ih _ _ _ _ h3)))
        (by simp [traceF])
    | ArrayAttribute nm =>
      simp only [visitF] at h
      obtain ⟨rfl, rfl⟩ := by simpa using h
      exact Step_eq (logVisit_step _ s) (by simp [traceF])
    | Variable nm ty =>
      simp only [visitF] at h
      obtain ⟨rfl, rfl⟩ := by simpa using h
      exact Step_eq (logVisit_step _ s) (by simp [traceF])
    | JumpNode lbl =>
      simp only [visitF] at h
      obtain ⟨r1, s1, h1, h2⟩ := obind_some h
      obtain ⟨rfl, rfl⟩ := by simpa using h2
      exact Step_eq (Step_trans (logVisit_step _ s) (Step_trans (ih _ _ _ _ h1)
        (putln_step 0 ("goto " ++ r1 ++ ";") s1))) (by simp [traceF])
    | JumpTargetNode lbl =>
      simp only [visitF] at h
      obtain ⟨r1, s1, h1, h2⟩ := obind_some h
      obtain ⟨rfl, rfl⟩ := by simpa using h2
      exact Step_eq (Step_trans (logVisit_step _ s) (Step_trans (ih _ _ _ _ h1)
        (putln_step 0 (r1 ++ ":") s1))) (by simp [traceF])
    | LabelNode id nm =>
      simp only [visitF, logVisit] at h
      cases hln : s.labelNames id with
      | some m =>
        rw [hln] at h
        obtain ⟨rfl, rfl⟩ := by simpa using h
        exact @Step_eq [Node.LabelNode id nm] _ s _
          ⟨rfl, rfl, rfl, fun _ _ hh => hh, fun hh => hh, by simp⟩ (by simp [traceF])
      | none =>
        rw [hln] at h
        obtain ⟨rfl, rfl⟩ := by simpa using h
        refine @Step_eq [Node.LabelNode id nm] _ s _
          ⟨rfl, rfl, rfl, ?_, ?_, by simp⟩ (by simp [traceF])
        · intro id' m hm
          by_cases hid : id' = id
          · subst hid; exact absurd hm (by simp [hln])
          · show Function.update s.labelNames id _ id' = some m
            rw [Function.update_noteq hid]
            exact hm
        · intro hinv
          exact labelInv_assign rfl rfl rfl hln hinv
    | ConstantNode v =>
      simp only [visitF] at h
      obtain ⟨rfl, rfl⟩ := by simpa using h
      exact Step_eq (logVisit_step _ s) (by simp [traceF])

/-! ## Cleanup traversal lemmas -/

theorem cleanupSeq_isSome {v : Node → Option (List Node)} :
    ∀ l : List Node, (∀ x ∈ l, (v x).isSome = true) → (cleanupSeq v l).isSome = true := by
  intro l
  induction l with
  | nil => intro; simp [cleanupSeq]
  | cons x xs ih =>
    intro hall
    have hx := hall x (by simp)
    have hxs := ih fun y hy => hall y (by simp [hy])
    simp only [cleanupSeq]
    cases hvx : v x with
    | none => rw [hvx] at hx; simp at hx
    | some t1 =>
      cases hseq : cleanupSeq v xs with
      | none => rw [hseq] at hxs; simp at hxs
      | some t2 => simp

theorem cleanupTF_generic (fuel : Nat) (n : Node) (hn : isForNode n = false) :
    cleanupTF (fuel+1) n = (cleanupSeq (cleanupTF fuel) (childrenOf n)).map (n :: ·) := by
  cases n <;> simp_all [cleanupTF, isForNode]

theorem cpF_success : ∀ fuel n, cpF fuel n = true → (cleanupTF fuel n).isSome = true := by
  intro fuel
  induction fuel with
  | zero => intro n h; simp [cpF] at h
  | succ fuel ih =>
    intro n h
    simp only [cpF, Bool.and_eq_true, List.all_eq_true] at h
    obtain ⟨hhead, hkids⟩ := h
    cases n with
    | ForNode i c st b t =>
      simp only [Bool.and_eq_true] at hhead
      obtain ⟨⟨hi, hc⟩, hst⟩ := hhead
      obtain ⟨iN, rfl⟩ := Option.isSome_iff_exists.mp hi
      obtain ⟨cN, rfl⟩ := Option.isSome_iff_exists.mp hc
      obtain ⟨sN, rfl⟩ := Option.isSome_iff_exists.mp hst
      have hiS := ih iN (hkids iN (by simp [childrenOf]))
      have hcS := ih cN (hkids cN (by simp [childrenOf]))
      have hsS := ih sN (hkids sN (by simp [childrenOf]))
      obtain ⟨ti, hti⟩ := Option.isSome_iff_exists.mp hiS
      obtain ⟨tc, htc⟩ := Option.isSome_iff_exists.mp hcS
      obtain ⟨ts, hts⟩ := Option.isSome_iff_exists.mp hsS
      simp [cleanupTF, cleanupClause, hti, htc, hts]
    | FunctionNode name spec_name args body =>
      rw [cleanupTF_generic fuel _ (by simp [isForNode])]
      have := cleanupSeq_isSome (childrenOf (Node.FunctionNode name spec_name args body))
        (fun x hx => ih x (hkids x hx))
      cases hseq : cleanupSeq (cleanupTF fuel) (childrenOf (Node.FunctionNode name spec_name args body)) with
      | none => rw [hseq] at this; simp at this
      | some tr => simp
    | FunctionArgument vs =>
      rw [cleanupTF_generic fuel _ (by simp [isForNode])]
      have := cleanupSeq_isSome (childrenOf (Node.FunctionArgument vs))
        (fun x hx => ih x (hkids x hx))
      cases hseq : cleanupSeq (cleanupTF fuel) (childrenOf (Node.FunctionArgument vs)) with
      | none => rw [hseq] at this; simp at this
      | some tr => simp
    | StatListNode stats =>
      rw [cleanupTF_generic fuel _ (by simp [isForNode])]
      have := cleanupSeq_isSome (childrenOf (Node.StatListNode stats))
        (fun x hx => ih x (hkids x hx))
      cases hseq : cleanupSeq (cleanupTF fuel) (childrenOf (Node.StatListNode stats)) with
      | none => rw [hseq] at this; simp at this
      | some tr => simp
    | ReturnNode op =>
      rw [cleanupTF_generic fuel _ (by simp [isForNode])]
      have := cleanupSeq_isSome (childrenOf (Node.ReturnNode op))
        (fun x hx => ih x (hkids x hx))
      cases hseq : cleanupSeq (cleanupTF fuel) (childrenOf (Node.ReturnNode op)) with
      | none => rw [hseq] at this; simp at this
      | some tr => simp
    | BinopNode op l r =>
      rw [cleanupTF_generic fuel _ (by simp [isForNode])]
      have := cleanupSeq_isSome (childrenOf (Node.BinopNode op l r))
        (fun x hx => ih x (hkids x hx))
      cases hseq : cleanupSeq (cleanupTF fuel) (childrenOf (Node.BinopNode op l r)) with
      | none => rw [hseq] at this; simp at this
      | some tr => simp
    | UnopNode op e =>
      rw [cleanupTF_generic fuel _ (by simp [isForNode])]
      have := cleanupSeq_isSome (childrenOf (Node.UnopNode op e))
        (fun x hx => ih x (hkids x hx))
      cases hseq : cleanupSeq (cleanupTF fuel) (childrenOf (Node.UnopNode op e)) with
      | none => rw [hseq] at this; simp at this
      | some tr => simp
    | TempNode nm ty =>
      rw [cleanupTF_generic fuel _ (by simp [isForNode])]
      simp [childrenOf, cleanupSeq]
    | AssignmentExpr l r =>
      rw [cleanupTF_generic fuel _ (by simp [isForNode])]
      have := cleanupSeq_isSome (childrenOf (Node.AssignmentExpr l r))
        (fun x hx => ih x (hkids x hx))
      cases hseq : cleanupSeq (cleanupTF fuel) (childrenOf (Node.AssignmentExpr l r)) with
      | none => rw [hseq] at this; simp at this
      | some tr => simp
    | AssignmentNode e =>
      rw [cleanupTF_generic fuel _ (by simp [isForNode])]
      have := cleanupSeq_isSome (childrenOf (Node.AssignmentNode e))
        (fun x hx => ih x (hkids x hx))
      cases hseq : cleanupSeq (cleanupTF fuel) (childrenOf (Node.AssignmentNode e)) with
      | none => rw [hseq] at this; simp at this
      | some tr => simp
    | CastNode ty e =>
      rw [cleanupTF_generic fuel _ (by simp [isForNode])]
      have := cleanupSeq_isSome (childrenOf (Node.CastNode ty e))
        (fun x hx => ih x (hkids x hx))
      cases hseq : cleanupSeq (cleanupTF fuel) (childrenOf (Node.CastNode ty e)) with
      | none => rw [hseq] at this; simp at this
      | some tr => simp
    | DereferenceNode e =>
      rw [cleanupTF_generic fuel _ (by simp [isForNode])]
      have := cleanupSeq_isSome (childrenOf (Node.DereferenceNode e))
        (fun x hx => ih x (hkids x hx))
      cases hseq : cleanupSeq (cleanupTF fuel) (childrenOf (Node.DereferenceNode e)) with
      | none => rw [hseq] at this; simp at this
      | some tr => simp
    | SingleIndexNode l r =>
      rw [cleanupTF_generic fuel _ (by simp [isForNode])]
      have := cleanupSeq_isSome (childrenOf (Node.SingleIndexNode l r))
        (fun x hx => ih x (hkids x hx))
      cases hseq : cleanupSeq (cleanupTF fuel) (childrenOf (Node.SingleIndexNode l r)) with
      | none => rw [hseq] at this; simp at this
      | some tr => simp
    | ArrayAttribute nm =>
      rw [cleanupTF_generic fuel _ (by simp [isForNode])]
      simp [childrenOf, cleanupSeq]
    | Variable nm ty =>
      rw [cleanupTF_generic fuel _ (by simp [isForNode])]
      simp [childrenOf, cleanupSeq]
    | JumpNode lbl =>
      rw [cleanupTF_generic fuel _ (by simp [isForNode])]
      have := cleanupSeq_isSome (childrenOf (Node.JumpNode lbl))
        (fun x hx => ih x (hkids x hx))
      cases hseq : cleanupSeq (cleanupTF fuel) (childrenOf (Node.JumpNode lbl)) with
      | none => rw [hseq] at this; simp at this
      | some tr => simp
    | JumpTargetNode lbl =>
      rw [cleanupTF_generic fuel _ (by simp [isForNode])]
      have := cleanupSeq_isSome (childrenOf (Node.JumpTargetNode lbl))
        (fun x hx => ih x (hkids x hx))
      cases hseq : cleanupSeq (cleanupTF fuel) (childrenOf (Node.JumpTargetNode lbl)) with
      | none => rw [hseq] at this; simp at this
      | some tr => simp
    | LabelNode id nm =>
      rw [cleanupTF_generic fuel _ (by simp [isForNode])]
      simp [childrenOf, cleanupSeq]
    | ConstantNode v =>
      rw [cleanupTF_generic fuel _ (by simp [isForNode])]
      simp [childrenOf, cleanupSeq]

/-! ## Single-step characterizations -/

theorem visitF_temp (ctx : Context) (fuel : Nat) (s : GenState) (name ty : String) :
    visitF ctx (fuel+1) (Node.TempNode name ty) s =
      (if s.mangle name ∈ s.declared_temps then
        some (s.mangle name, { s with visitLog := s.visitLog ++ [Node.TempNode name ty] })
      else
        some (s.mangle name,
          putln s.declaration_point (ctx.declare_type ty ++ " " ++ s.mangle name ++ ";")
            { s with
                declared_temps := s.mangle name :: s.declared_temps
                visitLog := s.visitLog ++ [Node.TempNode name ty] })) := by
  by_cases hmem : s.mangle name ∈ s.declared_temps
  · simp [visitF, logVisit, hmem]
  · simp [visitF, logVisit, hmem]

theorem visitF_label (ctx : Context) (fuel : Nat) (s : GenState) (id : Nat) (nm : String) :
    visitF ctx (fuel+1) (Node.LabelNode id nm) s =
      (match s.labelNames id with
       | some m => some (m, { s with visitLog := s.visitLog ++ [Node.LabelNode id nm] })
       | none =>
         some (nm ++ natToDec s.label_counter,
           { s with
              labelNames := Function.update s.labelNames id (some (nm ++ natToDec s.label_counter))
              labelMeta := Function.update s.labelMeta id (some (nm, s.label_counter))
              label_counter := s.label_counter + 1
              visitLog := s.visitLog ++ [Node.LabelNode id nm] })) := by
  cases hln : s.labelNames id <;> simp [visitF, logVisit, hln]

theorem labelInv_init (m : String → String) : labelInv (initState m) := by
  refine ⟨?_, ?_, ?_⟩
  · intro id b k hm
    simp [initState] at hm
  · intro id1 id2 b1 b2 k h1 h2
    simp [initState] at h1
  · intro id
    simp [initState]

/-! ## The claims -/

/-- C1: code bug.  The claim (and the spec, section 4.3 steps 5-6)
requires the disposal code for the body of an erroring For loop to be
emitted at the disposal insertion point obtained between marking the
catch point and marking the cascade point, so that the caught-error
path runs the disposal before cascading.  The source obtains that
insertion point (line 89) but then hands the main stream, not the
insertion point, to generate_disposal_code (line 94), so the disposal
text lands after the cascade mark: in the concrete run below the final
output has DISPOSE strictly after CASCADE, and the disposal insertion
point stays empty. -/
theorem spec_c1_bug :
    finalOutput (runStateD ctxErr 9 forBug (initState mangleId)) =
      ["for (i = 0; (i < 10); (++i)) \x7b", "x = 1;", "CATCH", "CASCADE", "DISPOSE", "\x7d"] ∧
    (finalOutput (runStateD ctxErr 9 forBug (initState mangleId))).indexOf "CASCADE" <
      (finalOutput (runStateD ctxErr 9 forBug (initState mangleId))).indexOf "DISPOSE" :=
  ⟨by decide, by decide⟩

/-- C5: for every visit (in particular every For node, tiled or not),
the declaration-levels and loop-levels stacks end at the same depth —
indeed with the same contents — as before; the tiled entry and exit
phases of For lowering touch neither stack, while the non-tiled entry
phase pushes exactly one fresh insertion point on each stack and the
non-tiled exit phase pops exactly one from each. -/
theorem spec_c5 (ctx : Context) (fuel : Nat) (n : Node) (s : GenState) :
    ((runStateD ctx fuel n s).declaration_levels = s.declaration_levels ∧
      (runStateD ctx fuel n s).loop_levels = s.loop_levels) ∧
    (forEnterLevels true s = s ∧ forExitLevels true s = s) ∧
    ((forEnterLevels false s).declaration_levels = s.nextId :: s.declaration_levels ∧
      (forEnterLevels false s).loop_levels = (s.nextId + 1) :: s.loop_levels) ∧
    ((forExitLevels false s).declaration_levels = s.declaration_levels.tail ∧
      (forExitLevels false s).loop_levels = s.loop_levels.tail) := by
  refine ⟨?_, ⟨rfl, rfl⟩, ⟨?_, ?_⟩, ⟨rfl, rfl⟩⟩
  · unfold runStateD
    cases hv : visitF ctx fuel n s with
    | none => simp
    | some p =>
      obtain ⟨r, s'⟩ := p
      have hst := visitF_step ctx fuel n s r s' hv
      exact ⟨by simpa using hst.2.1, by simpa using hst.2.2.1⟩
  · rw [forEnterLevels_false, pushLevels_decl]
  · rw [forEnterLevels_false, pushLevels_loop]

/-- C6: the round-trip scenario.  A Function node named f with one
integer argument x, empty specialization suffix, body return x + 1 and
the identity mangling rule lowers to the forward prototype on the
prototype stream, the opening line, the body line and the closing
brace, with the prototype preceding the definition in the final
output. -/
theorem spec_c6 :
    finalOutput (runStateD ctxPlain 9 fnRoundTrip (initState mangleId)) =
      ["static int f(int x);", "static int f(int x) \x7b", "return (x + 1);", "\x7d"] := by
  decide

/-- C9: a Variable renders to the sink-mangled form of its name while
an ArrayAttribute renders to its name verbatim; hence whenever the
mangling rule moves a name, a Variable and an ArrayAttribute bearing
that name render differently. -/
theorem spec_c9 (ctx : Context) (fuel : Nat) (s : GenState) (name ty : String) :
    runRes ctx (fuel+1) (Node.Variable name ty) s = some (s.mangle name) ∧
    runRes ctx (fuel+1) (Node.ArrayAttribute name) s = some name ∧
    (s.mangle name ≠ name →
      runRes ctx (fuel+1) (Node.Variable name ty) s ≠
        runRes ctx (fuel+1) (Node.ArrayAttribute name) s) := by
  have h1 : runRes ctx (fuel+1) (Node.Variable name ty) s = some (s.mangle name) := by
    simp [runRes, visitF, logVisit]
  have h2 : runRes ctx (fuel+1) (Node.ArrayAttribute name) s = some name := by
    simp [runRes, visitF]
  refine ⟨h1, h2, ?_⟩
  intro hne heq
  rw [h1, h2] at heq
  exact hne (by simpa using heq)

theorem spec_c9_witness :
    (initState mangleU).mangle "a" ≠ "a" ∧
    runRes ctxPlain 1 (Node.Variable "a" "int") (initState mangleU) ≠
      runRes ctxPlain 1 (Node.ArrayAttribute "a") (initState mangleU) :=
  ⟨by decide, (spec_c9 ctxPlain 0 (initState mangleU) "a" "int").2.2 (by decide)⟩

/-- C8: the Cleanup Traversal on a For node visits exactly the node
itself followed by the traversals of init, condition and step — the
body contributes nothing, as the body-swap conjunct makes explicit —
while on every other node kind it recurses generically into all the
node's children; it emits nothing (its embedding has no sink state at
all: no handler of CodeGenCleanup writes). -/
theorem spec_c8 :
    (∀ fuel (i c st b : Node) (t : Bool),
      cleanupTF (fuel+1) (Node.ForNode (some i) (some c) (some st) b t) =
        (match cleanupTF fuel i, cleanupTF fuel c, cleanupTF fuel st with
         | some ti, some tc, some ts =>
            some (Node.ForNode (some i) (some c) (some st) b t :: (ti ++ tc ++ ts))
         | _, _, _ => none)) ∧
    (∀ fuel (i c st : Option Node) (b b' : Node) (t : Bool),
      (cleanupTF (fuel+1) (Node.ForNode i c st b t)).map List.tail =
        (cleanupTF (fuel+1) (Node.ForNode i c st b' t)).map List.tail) ∧
    (∀ fuel (n : Node), isForNode n = false →
      cleanupTF (fuel+1) n = (cleanupSeq (cleanupTF fuel) (childrenOf n)).map (n :: ·)) := by
  refine ⟨?_, ?_, ?_⟩
  · intro fuel i c st b t
    simp only [cleanupTF, cleanupClause]
    cases cleanupTF fuel i <;> cases cleanupTF fuel c <;> cases cleanupTF fuel st <;> rfl
  · intro fuel i c st b b' t
    simp only [cleanupTF]
    cases hci : cleanupClause (cleanupTF fuel) i with
    | none => rfl
    | some ti =>
      cases hcc : cleanupClause (cleanupTF fuel) c with
      | none => rfl
      | some tc =>
        cases hcs : cleanupClause (cleanupTF fuel) st with
        | none => rfl
        | some ts => simp
  · exact fun fuel n hn => cleanupTF_generic fuel n hn

theorem spec_c8_witness :
    isForNode (Node.ReturnNode (Node.ConstantNode 1)) = false ∧
    cleanupTF 4 (Node.ReturnNode (Node.ConstantNode 1)) =
      (cleanupSeq (cleanupTF 3) (childrenOf (Node.ReturnNode (Node.ConstantNode 1)))).map
        (Node.ReturnNode (Node.ConstantNode 1) :: ·) :=
  ⟨rfl, spec_c8.2.2 3 (Node.ReturnNode (Node.ConstantNode 1)) rfl⟩

/-- C10: the cleanup For handler dispatches visit directly on init,
condition and step, so on any tree whose For nodes all carry their
three header clauses it never reaches an absent-node branch and
succeeds, while a For node missing any header clause makes it fail (the
node lies outside the handler's domain); the null-safe visitchild
wrapper of the base class, by contrast, maps an absent child to a
successful empty visit. -/
theorem spec_c10 :
    (∀ fuel n, cpF fuel n = true → (cleanupTF fuel n).isSome = true) ∧
    (∀ fuel (c st : Option Node) (b : Node) (t : Bool),
      cleanupTF (fuel+1) (Node.ForNode none c st b t) = none) ∧
    (∀ fuel (i st : Option Node) (b : Node) (t : Bool),
      cleanupTF (fuel+1) (Node.ForNode i none st b t) = none) ∧
    (∀ fuel (i c : Option Node) (b : Node) (t : Bool),
      cleanupTF (fuel+1) (Node.ForNode i c none b t) = none) ∧
    (∀ v : Node → Option (List Node), cleanupVisitChild v none = some []) := by
  refine ⟨cpF_success, ?_, ?_, ?_, fun v => rfl⟩
  · intro fuel c st b t
    simp [cleanupTF, cleanupClause]
  · intro fuel i st b t
    simp only [cleanupTF]
    cases hci : cleanupClause (cleanupTF fuel) i with
    | none => rfl
    | some ti => simp [cleanupClause]
  · intro fuel i c b t
    simp only [cleanupTF]
    cases hci : cleanupClause (cleanupTF fuel) i with
    | none => rfl
    | some ti =>
      cases hcc : cleanupClause (cleanupTF fuel) c with
      | none => rfl
      | some tc => simp [cleanupClause]

theorem spec_c10_witness :
    cpF 3 presentFor = true ∧ (cleanupTF 3 presentFor).isSome = true :=
  ⟨by decide, spec_c10.1 3 presentFor (by decide)⟩

/-- C2: Temp lowering declares once per run, at the captured function
declaration point.  The rendered name is always the sink-mangled name
(so all Temp visits with the same mangled name render identically); a
visit whose mangled name is already in the per-run declared set leaves
every buffer untouched; a first visit appends exactly one declaration
line to the buffer of the captured declaration point — every other
buffer, in particular the current emission cursor, is unchanged — and
records the name; an immediate revisit emits nothing further. -/
theorem spec_c2 (ctx : Context) (fuel : Nat) (s : GenState) (name ty name2 ty2 : String) :
    runRes ctx (fuel+1) (Node.TempNode name ty) s = some (s.mangle name) ∧
    (s.mangle name ∈ s.declared_temps →
      (runStateD ctx (fuel+1) (Node.TempNode name ty) s).bufs = s.bufs) ∧
    (s.mangle name ∉ s.declared_temps →
      (runStateD ctx (fuel+1) (Node.TempNode name ty) s).bufs =
        Function.update s.bufs s.declaration_point
          (s.bufs s.declaration_point ++
            [Item.line (ctx.declare_type ty ++ " " ++ s.mangle name ++ ";")]) ∧
      (runStateD ctx (fuel+1) (Node.TempNode name ty) s).declared_temps =
        s.mangle name :: s.declared_temps) ∧
    s.mangle name ∈ (runStateD ctx (fuel+1) (Node.TempNode name ty) s).declared_temps ∧
    (runStateD ctx (fuel+1) (Node.TempNode name ty) s).mangle = s.mangle ∧
    (runStateD ctx (fuel+1) (Node.TempNode name ty) s).declaration_point =
      s.declaration_point ∧
    (runRes ctx (fuel+1) (Node.TempNode name ty)
        (runStateD ctx (fuel+1) (Node.TempNode name ty) s) = some (s.mangle name) ∧
      (runStateD ctx (fuel+1) (Node.TempNode name ty)
          (runStateD ctx (fuel+1) (Node.TempNode name ty) s)).bufs =
        (runStateD ctx (fuel+1) (Node.TempNode name ty) s).bufs) ∧
    (s.mangle name2 = s.mangle name →
      runRes ctx (fuel+1) (Node.TempNode name2 ty2) s = some (s.mangle name)) := by
  by_cases hmem : s.mangle name ∈ s.declared_temps
  · have hA : runStateD ctx (fuel+1) (Node.TempNode name ty) s =
        { s with visitLog := s.visitLog ++ [Node.TempNode name ty] } := by
      simp [runStateD, visitF_temp, hmem]
    refine ⟨?_, ?_, ?_, ?_, ?_, ?_, ⟨?_, ?_⟩, ?_⟩
    · simp [runRes, visitF_temp, hmem]
    · intro; rw [hA]
    · intro hmem2; exact absurd hmem hmem2
    · rw [hA]; exact hmem
    · rw [hA]
    · rw [hA]
    · rw [hA]; simp [runRes, visitF_temp, hmem]
    · rw [hA]; simp [runStateD, visitF_temp, hmem]
    · intro heq; simp [runRes, visitF_temp, heq, hmem]
  · have hA : runStateD ctx (fuel+1) (Node.TempNode name ty) s =
        putln s.declaration_point (ctx.declare_type ty ++ " " ++ s.mangle name ++ ";")
          { s with
              declared_temps := s.mangle name :: s.declared_temps
              visitLog := s.visitLog ++ [Node.TempNode name ty] } := by
      simp [runStateD, visitF_temp, hmem]
    have hmem2 : s.mangle name ∈
        (runStateD ctx (fuel+1) (Node.TempNode name ty) s).declared_temps := by
      rw [hA]; simp [putln]
    refine ⟨?_, ?_, ?_, hmem2, ?_, ?_, ⟨?_, ?_⟩, ?_⟩
    · simp [runRes, visitF_temp, hmem]
    · intro hmem1; exact absurd hmem1 hmem
    · intro
      constructor
      · rw [hA]; simp [putln]
      · rw [hA]; simp [putln]
    · rw [hA]; simp [putln]
    · rw [hA]; simp [putln]
    · rw [hA]
      simp [runRes, visitF_temp, putln]
    · rw [hA]
      simp [runStateD, visitF_temp, putln]
    · intro heq; simp [runRes, visitF_temp, heq, hmem]

theorem spec_c2_witness :
    (initState mangleU).mangle "t" ∉ (initState mangleU).declared_temps ∧
    ((runStateD ctxPlain 1 (Node.TempNode "t" "double") (initState mangleU)).bufs =
        Function.update (initState mangleU).bufs (initState mangleU).declaration_point
          ((initState mangleU).bufs (initState mangleU).declaration_point ++
            [Item.line (ctxPlain.declare_type "double" ++ " " ++
              (initState mangleU).mangle "t" ++ ";")]) ∧
      (runStateD ctxPlain 1 (Node.TempNode "t" "double") (initState mangleU)).declared_temps =
        (initState mangleU).mangle "t" :: (initState mangleU).declared_temps) :=
  ⟨by decide, (spec_c2 ctxPlain 0 (initState mangleU) "t" "double" "t" "int").2.2.1 (by decide)⟩

/-- C3: a Label node's mangled name is assigned on the first visit only
and memoized: the state after a visit maps the label's identifier to
exactly the rendered name; a revisit returns the identical name and
leaves the table entry unchanged; once an entry is assigned, no visit
of any node whatsoever changes it; and a Jump referencing the label
records, before the label itself is ever reached, exactly the name a
direct visit of the label would have produced. -/
theorem spec_c3 (ctx : Context) (f1 f2 f3 : Nat) (id : Nat) (nm : String) (s : GenState) :
    (runRes ctx (f2+1) (Node.LabelNode id nm)
        (runStateD ctx (f1+1) (Node.LabelNode id nm) s) =
      runRes ctx (f1+1) (Node.LabelNode id nm) s) ∧
    ((runStateD ctx (f1+1) (Node.LabelNode id nm) s).labelNames id =
      runRes ctx (f1+1) (Node.LabelNode id nm) s) ∧
    ((runStateD ctx (f2+1) (Node.LabelNode id nm)
        (runStateD ctx (f1+1) (Node.LabelNode id nm) s)).labelNames id =
      (runStateD ctx (f1+1) (Node.LabelNode id nm) s).labelNames id) ∧
    (∀ n : Node, s.labelNames id = none ∨
      (runStateD ctx f3 n s).labelNames id = s.labelNames id) ∧
    ((runStateD ctx (f2+1+1) (Node.JumpNode (Node.LabelNode id nm)) s).labelNames id =
      runRes ctx (f1+1) (Node.LabelNode id nm) s) := by
  have hstable : ∀ n : Node, s.labelNames id = none ∨
      (runStateD ctx f3 n s).labelNames id = s.labelNames id := by
    intro n
    cases hln : s.labelNames id with
    | none => exact Or.inl rfl
    | some m =>
      refine Or.inr ?_
      unfold runStateD
      cases hv : visitF ctx f3 n s with
      | none => simp [hln]
      | some p =>
        obtain ⟨r, s'⟩ := p
        have hmono := (visitF_step ctx f3 n s r s' hv).2.2.2.1 id m hln
        simp [hmono, hln]
  cases hln : s.labelNames id with
  | some m =>
    have hA : runStateD ctx (f1+1) (Node.LabelNode id nm) s =
        { s with visitLog := s.visitLog ++ [Node.LabelNode id nm] } := by
      simp [runStateD, visitF_label, hln]
    have hR : runRes ctx (f1+1) (Node.LabelNode id nm) s = some m := by
      simp [runRes, visitF_label, hln]
    have hAid : (runStateD ctx (f1+1) (Node.LabelNode id nm) s).labelNames id = some m := by
      rw [hA]; exact hln
    refine ⟨?_, hAid.trans hR.symm, ?_, fun n => hln ▸ hstable n, ?_⟩
    · rw [hR]
      set A := runStateD ctx (f1+1) (Node.LabelNode id nm) s with hAset
      simp only [runRes]
      rw [visitF_label, hAid]
      simp
    · set A := runStateD ctx (f1+1) (Node.LabelNode id nm) s with hAset
      simp only [runStateD]
      rw [visitF_label, hAid]
      simpa using hAid
    · rw [hR]
      simp [runStateD, visitF, logVisit, hln, obind, putln]
  | none =>
    have hA : runStateD ctx (f1+1) (Node.LabelNode id nm) s =
        { s with
            labelNames := Function.update s.labelNames id
              (some (nm ++ natToDec s.label_counter))
            labelMeta := Function.update s.labelMeta id (some (nm, s.label_counter))
            label_counter := s.label_counter + 1
            visitLog := s.visitLog ++ [Node.LabelNode id nm] } := by
      simp [runStateD, visitF_label, hln]
    have hR : runRes ctx (f1+1) (Node.LabelNode id nm) s =
        some (nm ++ natToDec s.label_counter) := by
      simp [runRes, visitF_label, hln]
    have hAid : (runStateD ctx (f1+1) (Node.LabelNode id nm) s).labelNames id =
        some (nm ++ natToDec s.label_counter) := by
      rw [hA]; simp [Function.update_same]
    refine ⟨?_, hAid.trans hR.symm, ?_, fun n => hln ▸ hstable n, ?_⟩
    · rw [hR]
      set A := runStateD ctx (f1+1) (Node.LabelNode id nm) s with hAset
      simp only [runRes]
      rw [visitF_label, hAid]
      simp
    · set A := runStateD ctx (f1+1) (Node.LabelNode id nm) s with hAset
      simp only [runStateD]
      rw [visitF_label, hAid]
      simpa using hAid
    · rw [hR]
      simp [runStateD, visitF, logVisit, hln, obind, putln, Function.update_same]

/-- C4: counterexample to the claim as stated.  In a single run over
eleven labels, the Label node with identifier 0 and base name b1
(assigned at counter 0) and the distinct Label node with identifier 10
and base name b (assigned at counter 10) both receive the mangled name
b10: the name built from base name and counter is not unique for all
choices of base names. -/
theorem spec_c4_cex :
    (runStateD ctxPlain 9 collideTree (initState mangleId)).labelNames 0 = some "b10" ∧
    (runStateD ctxPlain 9 collideTree (initState mangleId)).labelNames 10 = some "b10" ∧
    (0 : Nat) ≠ 10 ∧ "b1" ≠ "b" :=
  ⟨by decide, by decide, by decide, by decide⟩

/-- C4 (amended): in any generation run, distinct Label nodes are
assigned strictly increasing counter values, and the resulting mangled
names are distinct whenever the two labels carry the same base name;
with unequal base names the base-plus-counter strings can collide. -/
theorem spec_c4_amended (ctx : Context) (fuel : Nat) (n : Node) (s : GenState)
    (id1 id2 : Nat) (b : String) (k1 k2 : Nat)
    (hinv : labelInv s) (hne : id1 ≠ id2)
    (h1 : (runStateD ctx fuel n s).labelMeta id1 = some (b, k1))
    (h2 : (runStateD ctx fuel n s).labelMeta id2 = some (b, k2)) :
    (runStateD ctx fuel n s).labelNames id1 ≠ (runStateD ctx fuel n s).labelNames id2 := by
  have hinv' : labelInv (runStateD ctx fuel n s) := by
    unfold runStateD
    cases hv : visitF ctx fuel n s with
    | none => simpa using hinv
    | some p =>
      obtain ⟨r, s'⟩ := p
      simpa using (visitF_step ctx fuel n s r s' hv).2.2.2.2.1 hinv
  obtain ⟨i1, i2, i3⟩ := hinv'
  obtain ⟨hk1, hn1⟩ := i1 id1 b k1 h1
  obtain ⟨hk2, hn2⟩ := i1 id2 b k2 h2
  have hkne : k1 ≠ k2 := fun hk => hne (i2 id1 id2 b b k1 h1 (hk ▸ h2))
  rw [hn1, hn2]
  intro heq
  have happ : b ++ natToDec k1 = b ++ natToDec k2 := by simpa using heq
  exact hkne (natToDec_inj (strAppend_left_cancel happ))

theorem spec_c4_amended_witness :
    labelInv (initState mangleId) ∧
    (runStateD ctxPlain 9 sameBaseTree (initState mangleId)).labelNames 0 ≠
      (runStateD ctxPlain 9 sameBaseTree (initState mangleId)).labelNames 1 :=
  ⟨labelInv_init mangleId,
   spec_c4_amended ctxPlain 9 sameBaseTree (initState mangleId) 0 1 "L" 0 1
     (labelInv_init mangleId) (by decide) (by decide) (by decide)⟩

/-- C7: lowering a For node visits the init clause twice: the visit log
extends by the For node itself, then the traces of init, condition and
step (the header rendering via results), then the trace of init again,
then the trace of the body; consequently, for any observer predicate
that holds exactly once in the init clause's trace and nowhere in the
traces of the other clauses, the body, or on the For node itself, the
log gains exactly two hits. -/
theorem spec_c7 (ctx : Context) (fuel : Nat) (i c st b : Node) (t : Bool) (s : GenState)
    (r : String) (s' : GenState)
    (h : visitF ctx (fuel+1) (Node.ForNode (some i) (some c) (some st) b t) s = some (r, s')) :
    s'.visitLog = s.visitLog ++
      Node.ForNode (some i) (some c) (some st) b t ::
        (traceF fuel i ++ traceF fuel c ++ traceF fuel st ++ traceF fuel i ++ traceF fuel b) ∧
    ∀ p : Node → Bool,
      List.countP p (traceF fuel i) = 1 → List.countP p (traceF fuel c) = 0 →
      List.countP p (traceF fuel st) = 0 → List.countP p (traceF fuel b) = 0 →
      p (Node.ForNode (some i) (some c) (some st) b t) = false →
      List.countP p s'.visitLog = List.countP p s.visitLog + 2 := by
  have hlog := (visitF_step ctx (fuel+1) _ s r s' h).2.2.2.2.2
  have hlog' : s'.visitLog = s.visitLog ++
      Node.ForNode (some i) (some c) (some st) b t ::
        (traceF fuel i ++ traceF fuel c ++ traceF fuel st ++ traceF fuel i ++ traceF fuel b) := by
    rw [hlog]
    simp [traceF, traceO]
  refine ⟨hlog', ?_⟩
  intro p hc1 hc2 hc3 hc4 hpf
  rw [hlog']
  simp [List.countP_append, List.countP_cons, hc1, hc2, hc3, hc4, hpf]

theorem spec_c7_witness :
    List.countP probe7
        (runStateD ctxPlain 10 (Node.ForNode (some initClause7) (some condClause7)
          (some stepClause7) body7 false) (initState mangleId)).visitLog =
      List.countP probe7 (initState mangleId).visitLog + 2 :=
  (spec_c7 ctxPlain 9 initClause7 condClause7 stepClause7 body7 false (initState mangleId)
      "" (runStateD ctxPlain 10 (Node.ForNode (some initClause7) (some condClause7)
        (some stepClause7) body7 false) (initState mangleId)) rfl).2 probe7
    (by decide) (by decide) (by decide) (by decide) (by decide)
